import Mathlib

/-!
Verification of the rg3d lightmap-baking pipeline specification against the
repository's code (`src/examples/lightmap.rs`).  The engine-side pipeline
(`uvgen`, `Lightmap`, the occlusion index, the lightmap store) is not part of
the repository slice under `src/`; those components are modelled from the
specification's own algorithm descriptions, as flagged on each definition.
All machine floating-point quantities are embedded as exact rationals, and
mesh triangles are identified by their index in the input triangle list.
-/

namespace Rg3d

/-! ## Geometry: vectors and triangles over ℚ (occlusion index, claim C4) -/

/-- A 3-component vector with exact rational coordinates, standing for the
engine's `Vec3` of `f32`s. -/
structure Vec3 where
  x : ℚ
  y : ℚ
  z : ℚ
deriving DecidableEq, Repr

def Vec3.sub (a b : Vec3) : Vec3 :=
  ⟨a.x - b.x, a.y - b.y, a.z - b.z⟩

def Vec3.dot (a b : Vec3) : ℚ :=
  a.x * b.x + a.y * b.y + a.z * b.z

def Vec3.cross (a b : Vec3) : Vec3 :=
  ⟨a.y * b.z - a.z * b.y, a.z * b.x - a.x * b.z, a.x * b.y - a.y * b.x⟩

/-- An occluder triangle given by its three world-space vertices. -/
structure Triangle where
  a : Vec3
  b : Vec3
  c : Vec3
deriving DecidableEq, Repr

/-- Modelled from the spec: the ray–triangle test used by the Visibility /
Occlusion Index (spec 4.3), whose engine implementation is not under `src/`.
Standard Moeller–Trumbore intersection of the open segment from `o` to `t`
(segment parameter strictly between `eps` and `1`, the epsilon guarding
against self-shadowing at the surface origin) with triangle `tri`. -/
def segHitTri (eps : ℚ) (o t : Vec3) (tri : Triangle) : Bool :=
  let d := Vec3.sub t o
  let e1 := Vec3.sub tri.b tri.a
  let e2 := Vec3.sub tri.c tri.a
  let p := Vec3.cross d e2
  let det := Vec3.dot e1 p
  if det = 0 then
    false
  else
    let s := Vec3.sub o tri.a
    let u := Vec3.dot s p / det
    let q := Vec3.cross s e1
    let v := Vec3.dot d q / det
    let tp := Vec3.dot e2 q / det
    decide (0 ≤ u) && decide (0 ≤ v) && decide (u + v ≤ 1) &&
      decide (eps < tp) && decide (tp < 1)

/-- Modelled from the spec: the Occlusion Index visibility query (spec 4.3),
not under `src/`.  `query origin target` is true iff no occluding triangle
intersects the open segment between them; the list traversal short-circuits
on the first hit exactly as the spec's BVH traversal does. -/
def query (eps : ℚ) (occluders : List Triangle) (origin target : Vec3) : Bool :=
  !(occluders.any (segHitTri eps origin target))

/-! ## UV unwrapper (claim C1)

Modelled from the spec (4.1): `uvgen::generate_uvs_mesh` is called from
`src/examples/lightmap.rs` but its implementation is not under `src/`.
Triangles are identified by their index `0, …, n-1` in the mesh's triangle
list.  `adj c t` abstracts edge-connectivity between triangles `c` and `t`;
`legal chart t` abstracts the growth test of spec 4.1 (angular deviation from
the seed normal under the threshold, and no local UV overlap after planar
projection).  Charts grow greedily, exploring candidates in input triangle
order, and a new chart is seeded from the first unvisited triangle. -/

/-- One growth step of a chart: the first triangle (in input order) that is
unvisited, edge-adjacent to the current chart and legal to add. -/
def chartStep (adj : Nat → Nat → Bool) (legal : List Nat → Nat → Bool) (n : Nat)
    (visited chart : List Nat) : Option Nat :=
  (List.range n).find? fun t =>
    decide (t ∉ visited) && chart.any (fun c => adj c t) && legal chart t

/-- Grow a chart to a fixpoint (fuel-bounded; fuel `n` suffices since every
step marks one more triangle visited).  Returns the grown chart together with
the updated visited set. -/
def growChart (adj : Nat → Nat → Bool) (legal : List Nat → Nat → Bool) (n : Nat) :
    Nat → List Nat → List Nat → List Nat × List Nat
  | 0, visited, chart => (chart, visited)
  | Nat.succ fuel, visited, chart =>
    match chartStep adj legal n visited chart with
    | none => (chart, visited)
    | some t => growChart adj legal n fuel (t :: visited) (chart ++ [t])

/-- Seed charts from unvisited triangles in input order, growing each chart to
completion before seeding the next. -/
def unwrapGo (adj : Nat → Nat → Bool) (legal : List Nat → Nat → Bool) (n : Nat) :
    List Nat → List Nat → List (List Nat)
  | [], _ => []
  | i :: rest, visited =>
    if i ∈ visited then
      unwrapGo adj legal n rest visited
    else
      let g := growChart adj legal n n (i :: visited) [i]
      g.1 :: unwrapGo adj legal n rest g.2

/-- Modelled from the spec: the UV unwrapping stage (`uvgen::generate_uvs_mesh`,
spec 4.1), producing the set of charts for a mesh of `n` triangles. -/
def generate_uvs_mesh (adj : Nat → Nat → Bool) (legal : List Nat → Nat → Bool)
    (n : Nat) : List (List Nat) :=
  unwrapGo adj legal n (List.range n) []

/-! ## Atlas packer (claim C2)

Modelled from the spec (4.2): the Atlas Packer is not under `src/`.  Chart
rectangles (sizes already including the padding margin) are sorted by
decreasing height and packed left-to-right into growing horizontal shelves of
a fixed-width atlas. -/

/-- A placed axis-aligned rectangle in atlas texel space. -/
structure Rect where
  x : Nat
  y : Nat
  w : Nat
  h : Nat
deriving DecidableEq, Repr

/-- Two placed rectangles occupy disjoint atlas regions. -/
def Rect.disjoint (a b : Rect) : Prop :=
  a.x + a.w ≤ b.x ∨ b.x + b.w ≤ a.x ∨ a.y + a.h ≤ b.y ∨ b.y + b.h ≤ a.y

instance (a b : Rect) : Decidable (Rect.disjoint a b) := by
  unfold Rect.disjoint
  infer_instance

/-- Shelf packing: place each `(width, height)` at the cursor if it fits in
the remaining shelf width, otherwise open a new shelf below the current one. -/
def packGo (aw : Nat) : List (Nat × Nat) → Nat → Nat → Nat → List Rect
  | [], _, _, _ => []
  | (w, h) :: rest, curX, curY, shelfH =>
    if curX + w ≤ aw then
      ⟨curX, curY, w, h⟩ :: packGo aw rest (curX + w) curY (max shelfH h)
    else
      ⟨0, curY + shelfH, w, h⟩ :: packGo aw rest w (curY + shelfH) h

/-- Insert a size into a list kept sorted by decreasing height. -/
def insertByHeight (s : Nat × Nat) : List (Nat × Nat) → List (Nat × Nat)
  | [] => [s]
  | t :: rest => if t.2 ≤ s.2 then s :: t :: rest else t :: insertByHeight s rest

/-- Sort chart sizes by decreasing height (spec 4.2's pre-pass). -/
def sortByHeight (sizes : List (Nat × Nat)) : List (Nat × Nat) :=
  sizes.foldr insertByHeight []

/-- Add the fixed padding margin on every side of a chart rectangle. -/
def padSize (pad : Nat) (s : Nat × Nat) : Nat × Nat :=
  (s.1 + 2 * pad, s.2 + 2 * pad)

/-- Modelled from the spec: the Atlas Packer (spec 4.2), not under `src/`.
Pads every chart size, sorts by decreasing height, and shelf-packs into an
atlas of width `aw`, returning each chart's placed padded bounding box. -/
def packCharts (aw pad : Nat) (sizes : List (Nat × Nat)) : List Rect :=
  packGo aw (sortByHeight (sizes.map (padSize pad))) 0 0 0

/-! ## Baking schedule independence (claim C3)

Modelled from the spec (4.4, 5): `Lightmap::new` is not under `src/`.  The
per-texel radiance is a pure function `f x y` of the texel's coordinates (the
sample-ray seed is derived from them; scene, light snapshot and configuration
are fixed inputs of `f`).  A bake executes some schedule — the order in which
the worker pool's chunks write their disjoint texels — over an initially
black `w*h` texture. -/

/-- Write the value of texel `i` for every `i` in the schedule, in schedule
order, into the flat texture `tex`. -/
def applySched (g : Nat → Nat) (sched : List Nat) (tex : List Nat) : List Nat :=
  sched.foldl (fun t i => t.set i (g i)) tex

/-- Per-texel value as a function of the flat texel index: the texel's own
coordinates `(i % w, i / w)` seed its sample rays. -/
def texelFun (w : Nat) (f : Nat → Nat → Nat) (i : Nat) : Nat :=
  f (i % w) (i / w)

/-- Modelled from the spec: one bake of a `w × h` lightmap texture under a
given worker schedule (spec 5's chunked, disjoint-texel writes). -/
def bakeSched (w h : Nat) (f : Nat → Nat → Nat) (sched : List Nat) : List Nat :=
  applySched (texelFun w f) sched (List.replicate (w * h) 0)

/-- The schedule-free reference bake: every texel holds its per-coordinate
value. -/
def bakeRef (w h : Nat) (f : Nat → Nat → Nat) : List Nat :=
  (List.range (w * h)).map (texelFun w f)

/-! ## Dilation pass (claim C5)

Modelled from the spec (4.4): the gap-fill pass is not under `src/`.  A
texture is a flat grid of optional color samples; `none` marks a texel with
no chart coverage.  The pass fills every uncovered texel with the value of
the nearest covered texel (squared euclidean distance on texel coordinates,
ties broken by scan order), propagating covered values outward. -/

/-- A lightmap texture: a `w × h` grid of optional color samples, `none`
meaning the texel is not covered by any chart. -/
structure TexGrid where
  w : Nat
  h : Nat
  data : List (Option Nat)
deriving DecidableEq, Repr

/-- The sample stored at flat index `i`, `none` when uncovered or out of
range. -/
def TexGrid.at (g : TexGrid) (i : Nat) : Option Nat :=
  g.data.getD i none

/-- Squared distance between the texel coordinates of flat indices `i` and
`j` in a grid of width `w`. -/
def sqDist (w i j : Nat) : Int :=
  ((i % w : Int) - (j % w : Int)) ^ 2 + ((i / w : Int) - (j / w : Int)) ^ 2

/-- Fold step of the nearest-covered-texel search: keep the best
`(value, squared distance)` seen so far, replacing it only on a strict
improvement (so the first-best in scan order wins ties). -/
def betterPick (g : TexGrid) (i : Nat) (best : Option (Nat × Int)) (j : Nat) :
    Option (Nat × Int) :=
  match TexGrid.at g j with
  | none => best
  | some v =>
    match best with
    | none => some (v, sqDist g.w i j)
    | some b => if sqDist g.w i j < b.2 then some (v, sqDist g.w i j) else best

/-- The value of the covered texel nearest to texel `i`, if any texel of the
grid is covered at all. -/
def nearestVal (g : TexGrid) (i : Nat) : Option Nat :=
  ((List.range (g.w * g.h)).foldl (betterPick g i) none).map Prod.fst

/-- One texel of the dilation pass: covered texels keep their value,
uncovered texels take the nearest covered value. -/
def dilateCell (g : TexGrid) (i : Nat) : Option Nat :=
  match TexGrid.at g i with
  | some v => some v
  | none => nearestVal g i

/-- Modelled from the spec: the dilation (gap-fill) pass of spec 4.4, not
under `src/`. -/
def dilate (g : TexGrid) : TexGrid :=
  ⟨g.w, g.h, (List.range (g.w * g.h)).map (dilateCell g)⟩

/-! ## Per-mesh bake results (claim C6)

Modelled from the spec (4.2, 7): `Lightmap::new` bakes every mesh of the
scene and is not under `src/`.  A mesh enters the packer as its list of
padded chart sizes at the requested density; if the packed atlas height
exceeds the hard maximum resolution the density is uniformly halved and
packing retried, and exhausting the retries is that mesh's
`PackingOverflow`. -/

/-- Per-mesh bake errors (spec 7's taxonomy, restricted to the packer). -/
inductive BakeErr where
  | packingOverflow : BakeErr
deriving DecidableEq, Repr

/-- Height of the packed atlas: the maximal lower edge of any placed
rectangle. -/
def packedHeight (aw : Nat) (sizes : List (Nat × Nat)) : Nat :=
  (packGo aw sizes 0 0 0).foldl (fun m r => max m (r.y + r.h)) 0

/-- Uniform density reduction: halve every chart rectangle. -/
def halveSizes (sizes : List (Nat × Nat)) : List (Nat × Nat) :=
  sizes.map fun s => (s.1 / 2, s.2 / 2)

/-- Pack a mesh's chart sizes, halving the density and retrying while the
atlas would exceed the maximum resolution; failure after the allotted
attempts is a `PackingOverflow` for this mesh. -/
def tryPack (maxRes aw : Nat) : Nat → List (Nat × Nat) → Except BakeErr (List Rect)
  | 0, _ => Except.error BakeErr.packingOverflow
  | Nat.succ fuel, sizes =>
    if packedHeight aw sizes ≤ maxRes then
      Except.ok (packGo aw sizes 0 0 0)
    else
      tryPack maxRes aw fuel (halveSizes sizes)

/-- Number of packing attempts (initial try plus automatic density
reductions). -/
def packAttempts : Nat := 5

/-- Modelled from the spec: the per-mesh part of a bake — pack this one
mesh's charts into its own atlas, reporting `PackingOverflow` on failure. -/
def bakeOne (maxRes aw : Nat) (mesh : List (Nat × Nat)) : Except BakeErr (List Rect) :=
  tryPack maxRes aw packAttempts mesh

/-- Modelled from the spec: the whole-scene bake of `Lightmap::new` (spec 7's
propagation policy), producing one result per mesh. -/
def bakeAll (maxRes aw : Nat) (meshes : List (List (Nat × Nat))) :
    List (Except BakeErr (List Rect)) :=
  meshes.map (bakeOne maxRes aw)

/-! ## Persistence (claim C7)

Modelled from the spec (4.5, 6): `Lightmap::save` and the corresponding load
path are not under `src/`.  A persisted record stores the baked texture data
together with the source mesh's triangle count at bake time; loading checks
it against the mesh's current triangle count. -/

/-- Error taxonomy of the persistence layer: a missing file, a generic I/O
failure, and the stale-geometry mismatch are distinct variants. -/
inductive PersistErr where
  | fileMissing : PersistErr
  | ioFailure : PersistErr
  | staleGeometry : PersistErr
deriving DecidableEq, Repr

/-- The persisted per-mesh record: texture data plus the triangle count the
mesh had when it was baked. -/
structure SavedLightmap where
  tri_count : Nat
  texData : List Nat
deriving DecidableEq, Repr

/-- Modelled from the spec: loading a persisted lightmap for a mesh that now
has `meshTriCount` triangles.  A missing record is `fileMissing`; a record
whose recorded triangle count no longer matches is rejected with
`staleGeometry`, never silently accepted. -/
def loadLightmap (stored : Option SavedLightmap) (meshTriCount : Nat) :
    Except PersistErr SavedLightmap :=
  match stored with
  | none => Except.error PersistErr.fileMissing
  | some sv =>
    if sv.tri_count = meshTriCount then Except.ok sv
    else Except.error PersistErr.staleGeometry

/-! ## Attaching the lightmap (claim C8)

Modelled from the spec (4.5): `Scene::set_lightmap` is not under `src/`.
Attaching installs the baked texture on the mesh; it fails — by returning an
error value, not by aborting — when the mesh's current triangle count no
longer matches the count at bake time. -/

/-- A renderable mesh surface as the attach step sees it: its current
triangle count and its (possibly absent) installed lightmap. -/
structure MeshState where
  tri_count : Nat
  lightmap : Option (List Nat)
deriving DecidableEq, Repr

/-- Attach-time errors. -/
inductive AttachErr where
  | staleGeometry : AttachErr
deriving DecidableEq, Repr

/-- Modelled from the spec: `Scene::set_lightmap` for one mesh — install the
baked texture when the triangle counts still match, otherwise return the
stale-geometry error. -/
def set_lightmap (m : MeshState) (bakedTriCount : Nat) (tex : List Nat) :
    Except AttachErr MeshState :=
  if bakedTriCount = m.tri_count then
    Except.ok ⟨m.tri_count, some tex⟩
  else
    Except.error AttachErr.staleGeometry

/-! ## Hiding light nodes post-bake (claim C9)

From the source (`src/examples/lightmap.rs`, the loop after
`scene.set_lightmap`): iterate over all nodes and set visibility to `false`
exactly on `Node::Light` nodes. -/

/-- The scene-node kinds relevant to the example. -/
inductive NodeKind where
  | base : NodeKind
  | camera : NodeKind
  | mesh : NodeKind
  | light : NodeKind
deriving DecidableEq, Repr

/-- A scene-graph node as the post-bake loop sees it: its kind and its
visibility flag. -/
structure SceneNode where
  kind : NodeKind
  visibility : Bool
deriving DecidableEq, Repr

/-- The engine's `Node::set_visibility`. -/
def set_visibility (n : SceneNode) (v : Bool) : SceneNode :=
  ⟨n.kind, v⟩

/-- Whether the `if let Node::Light(_)` pattern matches this node. -/
def is_light (n : SceneNode) : Bool :=
  n.kind = NodeKind.light

/-- The post-bake loop of `create_scene`: `linear_iter_mut` over the graph,
setting visibility to `false` on every light node and touching nothing
else. -/
def hide_lights (nodes : List SceneNode) : List SceneNode :=
  nodes.map fun n => if is_light n then set_visibility n false else n

/-! ## Fixed-timestep rotation update (claim C10)

From the source (`src/examples/lightmap.rs`, the fixed-timestep body of
`main`): `model_angle` decreases by `5.0f32.to_radians()` while
`rotate_left` is held (the `else if` makes left take precedence), increases
by the same amount while only `rotate_right` is held, and the root node's
rotation is then set to `Quat::from_axis_angle(Vec3::new(0,1,0), model_angle)`.
Angles are embedded in degrees, so the per-tick step is exactly `5`. -/

/-- The input controller of the example. -/
structure InputController where
  rotate_left : Bool
  rotate_right : Bool
deriving DecidableEq, Repr

/-- The per-tick angle step: `5.0f32.to_radians()` in the code, i.e. five
degrees. -/
def rotationStep : ℚ := 5

/-- The angle update of one fixed-timestep iteration. -/
def updateAngle (ic : InputController) (a : ℚ) : ℚ :=
  if ic.rotate_left then a - rotationStep
  else if ic.rotate_right then a + rotationStep
  else a

/-- A rotation value as handed to `set_rotation`: the axis and angle passed
to `Quat::from_axis_angle`. -/
structure Quat where
  axis : Vec3
  angle : ℚ
deriving DecidableEq, Repr

/-- One fixed-timestep update of the example's game logic: the new
accumulated angle and the rotation installed on the root node. -/
def stepModel (ic : InputController) (a : ℚ) : ℚ × Quat :=
  let a2 := updateAngle ic a
  (a2, ⟨⟨0, 1, 0⟩, a2⟩)

/-! ## Theorems -/

/-- Every rectangle placed by the shelf packer either sits on the current
shelf to the right of the cursor, or strictly below the current shelf. -/
theorem packGo_pos (aw : Nat) (rest : List (Nat × Nat)) :
    ∀ curX curY shelfH, ∀ r ∈ packGo aw rest curX curY shelfH,
      (r.y = curY ∧ curX ≤ r.x) ∨ curY + shelfH ≤ r.y := by
  induction rest with
  | nil => intro curX curY shelfH r hr; simp [packGo] at hr
  | cons s rest ih =>
    intro curX curY shelfH r hr
    obtain ⟨w, h⟩ := s
    simp only [packGo] at hr
    by_cases hfit : curX + w ≤ aw
    · rw [if_pos hfit] at hr
      rcases List.mem_cons.mp hr with rfl | hr'
      · exact Or.inl ⟨rfl, Nat.le_refl _⟩
      · rcases ih (curX + w) curY (max shelfH h) r hr' with ⟨hy, hx⟩ | hy
        · exact Or.inl ⟨hy, Nat.le_trans (Nat.le_add_right _ _) hx⟩
        · have := Nat.le_max_left shelfH h
          exact Or.inr (by omega)
    · rw [if_neg hfit] at hr
      rcases List.mem_cons.mp hr with rfl | hr'
      · exact Or.inr (Nat.le_refl _)
      · rcases ih w (curY + shelfH) h r hr' with ⟨hy, _⟩ | hy
        · exact Or.inr (by omega)
        · exact Or.inr (by omega)

/-- The rectangles produced by the shelf packer are pairwise disjoint. -/
theorem packGo_pairwise (aw : Nat) (rest : List (Nat × Nat)) :
    ∀ curX curY shelfH, (packGo aw rest curX curY shelfH).Pairwise Rect.disjoint := by
  induction rest with
  | nil => intro curX curY shelfH; simp [packGo]
  | cons s rest ih =>
    intro curX curY shelfH
    obtain ⟨w, h⟩ := s
    simp only [packGo]
    by_cases hfit : curX + w ≤ aw
    · rw [if_pos hfit]
      refine List.Pairwise.cons ?_ (ih _ _ _)
      intro r hr
      have hmax := Nat.le_max_right shelfH h
      rcases packGo_pos aw rest (curX + w) curY (max shelfH h) r hr with ⟨_, hx⟩ | hy <;>
        · simp only [Rect.disjoint]
          omega
    · rw [if_neg hfit]
      refine List.Pairwise.cons ?_ (ih _ _ _)
      intro r hr
      rcases packGo_pos aw rest w (curY + shelfH) h r hr with ⟨_, hx⟩ | hy <;>
        · simp only [Rect.disjoint]
          omega

/-- C2: for every mesh's packed atlas, no two distinct packed charts overlap
in atlas UV space once padding is accounted for — the padded bounding boxes
placed by the atlas packer are pairwise disjoint. -/
theorem packCharts_no_overlap (aw pad : Nat) (sizes : List (Nat × Nat)) :
    (packCharts aw pad sizes).Pairwise Rect.disjoint :=
  packGo_pairwise aw (sortByHeight (sizes.map (padSize pad))) 0 0 0

/-- C6: per-mesh bake failures are isolated.  The bake reports one result per
mesh; each mesh's result is a function of that mesh alone; and replacing some
other mesh `j` (for instance by one whose packing overflows) leaves mesh `i`'s
result unchanged. -/
theorem bakeAll_per_mesh_isolation (maxRes aw : Nat) (meshes : List (List (Nat × Nat))) :
    (bakeAll maxRes aw meshes).length = meshes.length ∧
    (∀ (i : Nat) (m : List (Nat × Nat)), meshes[i]? = some m →
      (bakeAll maxRes aw meshes)[i]? = some (bakeOne maxRes aw m)) ∧
    (∀ (j : Nat) (m' : List (Nat × Nat)) (i : Nat), i ≠ j →
      (bakeAll maxRes aw (meshes.set j m'))[i]? = (bakeAll maxRes aw meshes)[i]?) := by
  refine ⟨List.length_map _ _, ?_, ?_⟩
  · intro i m hm
    rw [bakeAll, List.getElem?_map, hm]
    rfl
  · intro j m' i hij
    simp only [bakeAll, List.map_set]
    exact List.getElem?_set_ne (fun h => hij h.symm)

/-- C6 witness: in a batch of two meshes, the first mesh overflows the packer
even after all density reductions while the second still bakes, and replacing
the first mesh does not change the second mesh's result. -/
theorem bakeAll_per_mesh_isolation_witness :
    (1 : Nat) ≠ 0 ∧
    (bakeAll 8 64 ([[(1000, 1000)], [(4, 4)]].set 0 [(2000, 2000)]))[1]? =
      (bakeAll 8 64 [[(1000, 1000)], [(4, 4)]])[1]? ∧
    (bakeAll 8 64 [[(1000, 1000)], [(4, 4)]])[0]? =
      some (Except.error BakeErr.packingOverflow) ∧
    (bakeAll 8 64 [[(1000, 1000)], [(4, 4)]])[1]? =
      some (Except.ok [⟨0, 0, 4, 4⟩]) :=
  ⟨by decide,
   (bakeAll_per_mesh_isolation 8 64 [[(1000, 1000)], [(4, 4)]]).2.2 0 [(2000, 2000)] 1
     (by decide),
   rfl, rfl⟩

/-- C7: loading persisted lightmap data for a mesh whose triangle count no
longer matches the count recorded at bake time returns the stale-geometry
error, which is a distinct value from the missing-file and generic I/O
errors, and the mismatch is never silently accepted; a missing record gives
the distinct missing-file error. -/
theorem loadLightmap_stale_geometry (sv : SavedLightmap) (meshTriCount : Nat)
    (hne : sv.tri_count ≠ meshTriCount) :
    loadLightmap (some sv) meshTriCount = Except.error PersistErr.staleGeometry ∧
    (∀ r, loadLightmap (some sv) meshTriCount ≠ Except.ok r) ∧
    PersistErr.staleGeometry ≠ PersistErr.fileMissing ∧
    PersistErr.staleGeometry ≠ PersistErr.ioFailure ∧
    loadLightmap none meshTriCount = Except.error PersistErr.fileMissing := by
  refine ⟨by simp [loadLightmap, hne], ?_, by decide, by decide, rfl⟩
  intro r
  simp [loadLightmap, hne]

/-- C7 witness: a record baked from 3 triangles loaded against a mesh that
now has 5 triangles. -/
theorem loadLightmap_stale_geometry_witness :
    (SavedLightmap.mk 3 []).tri_count ≠ 5 ∧
    (loadLightmap (some ⟨3, []⟩) 5 = Except.error PersistErr.staleGeometry ∧
     (∀ r, loadLightmap (some ⟨3, []⟩) 5 ≠ Except.ok r) ∧
     PersistErr.staleGeometry ≠ PersistErr.fileMissing ∧
     PersistErr.staleGeometry ≠ PersistErr.ioFailure ∧
     loadLightmap none 5 = Except.error PersistErr.fileMissing) :=
  ⟨by decide, loadLightmap_stale_geometry ⟨3, []⟩ 5 (by decide)⟩

/-- C8: attaching a baked lightmap to a mesh succeeds exactly when the mesh's
triangle count at attach time still matches the count at bake time, and on a
mismatch it returns the stale-geometry error value (rather than aborting). -/
theorem set_lightmap_tri_count (m : MeshState) (bakedTriCount : Nat) (tex : List Nat) :
    (bakedTriCount = m.tri_count →
      set_lightmap m bakedTriCount tex = Except.ok ⟨m.tri_count, some tex⟩) ∧
    (bakedTriCount ≠ m.tri_count →
      set_lightmap m bakedTriCount tex = Except.error AttachErr.staleGeometry) := by
  constructor <;> intro h <;> simp [set_lightmap, h]

/-- C8 witness: attach succeeds on a matching count and fails with the
stale-geometry error on a mismatched count. -/
theorem set_lightmap_tri_count_witness :
    set_lightmap ⟨4, none⟩ 4 [1, 2] = Except.ok ⟨4, some [1, 2]⟩ ∧
    set_lightmap ⟨4, none⟩ 7 [1, 2] = Except.error AttachErr.staleGeometry :=
  ⟨(set_lightmap_tri_count ⟨4, none⟩ 4 [1, 2]).1 (by decide),
   (set_lightmap_tri_count ⟨4, none⟩ 7 [1, 2]).2 (by decide)⟩

/-- C9: after the bake, the post-bake loop sets the visibility of every light
node to false and leaves every non-light node entirely unchanged. -/
theorem hide_lights_spec (nodes : List SceneNode) (i : Nat) (n : SceneNode)
    (hn : nodes[i]? = some n) :
    (is_light n = true →
      (hide_lights nodes)[i]? = some (set_visibility n false) ∧
      (set_visibility n false).visibility = false) ∧
    (is_light n = false → (hide_lights nodes)[i]? = some n) := by
  constructor <;> intro h <;> simp [hide_lights, hn, h, set_visibility]

/-- C9 witness: a light node is made invisible while a mesh node is left
untouched. -/
theorem hide_lights_spec_witness :
    ([⟨NodeKind.light, true⟩, ⟨NodeKind.mesh, true⟩] : List SceneNode)[0]? =
      some ⟨NodeKind.light, true⟩ ∧
    ((hide_lights [⟨NodeKind.light, true⟩, ⟨NodeKind.mesh, true⟩])[0]? =
      some (set_visibility ⟨NodeKind.light, true⟩ false) ∧
     (set_visibility (⟨NodeKind.light, true⟩ : SceneNode) false).visibility = false) :=
  ⟨rfl, (hide_lights_spec [⟨NodeKind.light, true⟩, ⟨NodeKind.mesh, true⟩] 0
    ⟨NodeKind.light, true⟩ rfl).1 rfl⟩

/-- A successful chart-growth step picks an unvisited triangle of the mesh. -/
theorem chartStep_some (adj : Nat → Nat → Bool) (legal : List Nat → Nat → Bool)
    (n : Nat) (visited chart : List Nat) (t : Nat)
    (h : chartStep adj legal n visited chart = some t) :
    t ∉ visited ∧ t < n := by
  have hmem := List.mem_of_find?_eq_some h
  have hp := List.find?_some h
  simp only [Bool.and_eq_true, decide_eq_true_eq] at hp
  exact ⟨hp.1.1, List.mem_range.mp hmem⟩

/-- Growing a chart only ever adds triangles to it. -/
theorem growChart_chart_mem (adj : Nat → Nat → Bool) (legal : List Nat → Nat → Bool)
    (n : Nat) : ∀ (fuel : Nat) (visited chart : List Nat) (x : Nat), x ∈ chart →
    x ∈ (growChart adj legal n fuel visited chart).1 := by
  intro fuel
  induction fuel with
  | zero => intro visited chart x hx; exact hx
  | succ fuel ih =>
    intro visited chart x hx
    simp only [growChart]
    cases hstep : chartStep adj legal n visited chart with
    | none => exact hx
    | some t => exact ih _ _ x (List.mem_append_left _ hx)

/-- Growing a chart only ever adds triangles to the visited set. -/
theorem growChart_visited_mono (adj : Nat → Nat → Bool) (legal : List Nat → Nat → Bool)
    (n : Nat) : ∀ (fuel : Nat) (visited chart : List Nat) (x : Nat), x ∈ visited →
    x ∈ (growChart adj legal n fuel visited chart).2 := by
  intro fuel
  induction fuel with
  | zero => intro visited chart x hx; exact hx
  | succ fuel ih =>
    intro visited chart x hx
    simp only [growChart]
    cases hstep : chartStep adj legal n visited chart with
    | none => exact hx
    | some t => exact ih _ _ x (List.mem_cons_of_mem _ hx)

/-- After growing a chart whose members were already visited, the visited set
is exactly the old visited set together with the grown chart. -/
theorem growChart_visited_iff (adj : Nat → Nat → Bool) (legal : List Nat → Nat → Bool)
    (n : Nat) : ∀ (fuel : Nat) (visited chart : List Nat),
    (∀ y ∈ chart, y ∈ visited) → ∀ x : Nat,
    (x ∈ (growChart adj legal n fuel visited chart).2 ↔
      x ∈ visited ∨ x ∈ (growChart adj legal n fuel visited chart).1) := by
  intro fuel
  induction fuel with
  | zero =>
    intro visited chart hsub x
    constructor
    · exact Or.inl
    · rintro (h | h)
      · exact h
      · exact hsub x h
  | succ fuel ih =>
    intro visited chart hsub x
    simp only [growChart]
    cases hstep : chartStep adj legal n visited chart with
    | none =>
      constructor
      · exact Or.inl
      · rintro (h | h)
        · exact h
        · exact hsub x h
    | some t =>
      have hsub2 : ∀ y ∈ chart ++ [t], y ∈ t :: visited := by
        intro y hy
        rcases List.mem_append.mp hy with h | h
        · exact List.mem_cons_of_mem _ (hsub y h)
        · have := List.mem_singleton.mp h
          subst this
          exact List.mem_cons_self _ _
      have ht1 : t ∈ (growChart adj legal n fuel (t :: visited) (chart ++ [t])).1 :=
        growChart_chart_mem adj legal n fuel _ _ t
          (List.mem_append_right _ (List.mem_singleton.mpr rfl))
      have h2 := ih (t :: visited) (chart ++ [t]) hsub2 x
      constructor
      · intro hx
        rcases h2.mp hx with hv | hc
        · rcases List.mem_cons.mp hv with rfl | hv'
          · exact Or.inr ht1
          · exact Or.inl hv'
        · exact Or.inr hc
      · rintro (hv | hc)
        · exact h2.mpr (Or.inl (List.mem_cons_of_mem _ hv))
        · exact h2.mpr (Or.inr hc)

/-- Every triangle of a grown chart was in the seed chart or is an unvisited
triangle of the mesh. -/
theorem growChart_chart_new (adj : Nat → Nat → Bool) (legal : List Nat → Nat → Bool)
    (n : Nat) : ∀ (fuel : Nat) (visited chart : List Nat) (x : Nat),
    x ∈ (growChart adj legal n fuel visited chart).1 →
    x ∈ chart ∨ (x ∉ visited ∧ x < n) := by
  intro fuel
  induction fuel with
  | zero => intro visited chart x hx; exact Or.inl hx
  | succ fuel ih =>
    intro visited chart x
    simp only [growChart]
    cases hstep : chartStep adj legal n visited chart with
    | none => exact Or.inl
    | some t =>
      intro hx
      obtain ⟨htv, htn⟩ := chartStep_some adj legal n visited chart t hstep
      rcases ih (t :: visited) (chart ++ [t]) x hx with hxc | ⟨hnv, hlt⟩
      · rcases List.mem_append.mp hxc with h | h
        · exact Or.inl h
        · have := List.mem_singleton.mp h
          subst this
          exact Or.inr ⟨htv, htn⟩
      · exact Or.inr ⟨fun hv => hnv (List.mem_cons_of_mem _ hv), hlt⟩

/-- A chart grown from a duplicate-free seed whose members are visited stays
duplicate-free. -/
theorem growChart_chart_nodup (adj : Nat → Nat → Bool) (legal : List Nat → Nat → Bool)
    (n : Nat) : ∀ (fuel : Nat) (visited chart : List Nat),
    chart.Nodup → (∀ y ∈ chart, y ∈ visited) →
    (growChart adj legal n fuel visited chart).1.Nodup := by
  intro fuel
  induction fuel with
  | zero => intro visited chart hnd _; exact hnd
  | succ fuel ih =>
    intro visited chart hnd hsub
    simp only [growChart]
    cases hstep : chartStep adj legal n visited chart with
    | none => exact hnd
    | some t =>
      obtain ⟨htv, _⟩ := chartStep_some adj legal n visited chart t hstep
      apply ih
      · rw [List.nodup_append]
        refine ⟨hnd, List.nodup_singleton t, ?_⟩
        intro x hx hxt
        have := List.mem_singleton.mp hxt
        subst this
        exact htv (hsub x hx)
      · intro y hy
        rcases List.mem_append.mp hy with h | h
        · exact List.mem_cons_of_mem _ (hsub y h)
        · have := List.mem_singleton.mp h
          subst this
          exact List.mem_cons_self _ _

/-- No triangle of any produced chart was already visited when the unwrapping
loop was entered. -/
theorem unwrapGo_not_visited (adj : Nat → Nat → Bool) (legal : List Nat → Nat → Bool)
    (n : Nat) : ∀ (rest visited : List Nat) (c : List Nat),
    c ∈ unwrapGo adj legal n rest visited → ∀ x ∈ c, x ∉ visited := by
  intro rest
  induction rest with
  | nil => intro visited c hc; simp [unwrapGo] at hc
  | cons i rest ih =>
    intro visited c hc x hx
    simp only [unwrapGo] at hc
    by_cases hi : i ∈ visited
    · rw [if_pos hi] at hc
      exact ih visited c hc x hx
    · rw [if_neg hi] at hc
      rcases List.mem_cons.mp hc with rfl | hc'
      · rcases growChart_chart_new adj legal n n (i :: visited) [i] x hx with hxi | ⟨hnv, _⟩
        · have := List.mem_singleton.mp hxi
          subst this
          exact hi
        · exact fun hv => hnv (List.mem_cons_of_mem _ hv)
      · intro hv
        exact ih _ c hc' x hx
          (growChart_visited_mono adj legal n n (i :: visited) [i] x
            (List.mem_cons_of_mem _ hv))

/-- Every unvisited triangle of the remaining seed list ends up in some
produced chart. -/
theorem unwrapGo_covers (adj : Nat → Nat → Bool) (legal : List Nat → Nat → Bool)
    (n : Nat) : ∀ (rest visited : List Nat) (t : Nat), t ∈ rest → t ∉ visited →
    ∃ c ∈ unwrapGo adj legal n rest visited, t ∈ c := by
  intro rest
  induction rest with
  | nil => intro visited t ht _; exact absurd ht (List.not_mem_nil t)
  | cons i rest ih =>
    intro visited t ht hnv
    simp only [unwrapGo]
    by_cases hi : i ∈ visited
    · rw [if_pos hi]
      rcases List.mem_cons.mp ht with rfl | ht'
      · exact absurd hi hnv
      · exact ih visited t ht' hnv
    · rw [if_neg hi]
      by_cases htc : t ∈ (growChart adj legal n n (i :: visited) [i]).1
      · exact ⟨_, List.mem_cons_self _ _, htc⟩
      · have hti : t ≠ i := by
          intro h
          subst h
          exact htc (growChart_chart_mem adj legal n n _ _ t (List.mem_singleton.mpr rfl))
        have ht' : t ∈ rest := by
          rcases List.mem_cons.mp ht with h | h
          · exact absurd h hti
          · exact h
        have hsub : ∀ y ∈ ([i] : List Nat), y ∈ i :: visited := by
          intro y hy
          have := List.mem_singleton.mp hy
          subst this
          exact List.mem_cons_self _ _
        have hnv2 : t ∉ (growChart adj legal n n (i :: visited) [i]).2 := by
          intro h2
          rcases (growChart_visited_iff adj legal n n (i :: visited) [i] hsub t).mp h2 with
            hv | hc
          · rcases List.mem_cons.mp hv with h | h
            · exact hti h
            · exact hnv h
          · exact htc hc
        obtain ⟨c, hcmem, htcc⟩ := ih _ t ht' hnv2
        exact ⟨c, List.mem_cons_of_mem _ hcmem, htcc⟩

/-- Charts only contain triangles of the mesh. -/
theorem unwrapGo_bound (adj : Nat → Nat → Bool) (legal : List Nat → Nat → Bool)
    (n : Nat) : ∀ (rest visited : List Nat), (∀ i ∈ rest, i < n) →
    ∀ c ∈ unwrapGo adj legal n rest visited, ∀ x ∈ c, x < n := by
  intro rest
  induction rest with
  | nil => intro visited _ c hc; simp [unwrapGo] at hc
  | cons i rest ih =>
    intro visited hb c hc x hx
    simp only [unwrapGo] at hc
    by_cases hi : i ∈ visited
    · rw [if_pos hi] at hc
      exact ih visited (fun j hj => hb j (List.mem_cons_of_mem _ hj)) c hc x hx
    · rw [if_neg hi] at hc
      rcases List.mem_cons.mp hc with rfl | hc'
      · rcases growChart_chart_new adj legal n n (i :: visited) [i] x hx with hxi | ⟨_, hlt⟩
        · have := List.mem_singleton.mp hxi
          subst this
          exact hb _ (List.mem_cons_self _ _)
        · exact hlt
      · exact ih _ (fun j hj => hb j (List.mem_cons_of_mem _ hj)) c hc' x hx

/-- Every produced chart is free of duplicate triangles. -/
theorem unwrapGo_nodup (adj : Nat → Nat → Bool) (legal : List Nat → Nat → Bool)
    (n : Nat) : ∀ (rest visited : List Nat), ∀ c ∈ unwrapGo adj legal n rest visited,
    c.Nodup := by
  intro rest
  induction rest with
  | nil => intro visited c hc; simp [unwrapGo] at hc
  | cons i rest ih =>
    intro visited c hc
    simp only [unwrapGo] at hc
    by_cases hi : i ∈ visited
    · rw [if_pos hi] at hc
      exact ih visited c hc
    · rw [if_neg hi] at hc
      rcases List.mem_cons.mp hc with rfl | hc'
      · refine growChart_chart_nodup adj legal n n (i :: visited) [i]
          (List.nodup_singleton i) ?_
        intro y hy
        have := List.mem_singleton.mp hy
        subst this
        exact List.mem_cons_self _ _
      · exact ih _ c hc'

/-- Distinct produced charts share no triangle. -/
theorem unwrapGo_pairwise (adj : Nat → Nat → Bool) (legal : List Nat → Nat → Bool)
    (n : Nat) : ∀ (rest visited : List Nat),
    (unwrapGo adj legal n rest visited).Pairwise List.Disjoint := by
  intro rest
  induction rest with
  | nil => intro visited; simp [unwrapGo]
  | cons i rest ih =>
    intro visited
    simp only [unwrapGo]
    by_cases hi : i ∈ visited
    · rw [if_pos hi]
      exact ih visited
    · rw [if_neg hi]
      refine List.Pairwise.cons ?_ (ih _)
      intro c hc x hx hxc
      have hsub : ∀ y ∈ ([i] : List Nat), y ∈ i :: visited := by
        intro y hy
        have := List.mem_singleton.mp hy
        subst this
        exact List.mem_cons_self _ _
      have hx2 : x ∈ (growChart adj legal n n (i :: visited) [i]).2 :=
        (growChart_visited_iff adj legal n n (i :: visited) [i] hsub x).mpr (Or.inr hx)
      exact unwrapGo_not_visited adj legal n rest _ c hc x hxc hx2

/-- C1: the charts produced by the UV unwrapping stage partition the mesh's
triangle list — every triangle index below `n` occurs exactly once across all
charts (no duplicates, no omissions), and charts contain only triangles of
the mesh. -/
theorem generate_uvs_mesh_partition (adj : Nat → Nat → Bool)
    (legal : List Nat → Nat → Bool) (n t : Nat) (ht : t < n) :
    (generate_uvs_mesh adj legal n).flatten.count t = 1 ∧
    ∀ c ∈ generate_uvs_mesh adj legal n, ∀ x ∈ c, x < n := by
  have hnd : (generate_uvs_mesh adj legal n).flatten.Nodup :=
    List.nodup_flatten.mpr
      ⟨fun c hc => unwrapGo_nodup adj legal n (List.range n) [] c hc,
       unwrapGo_pairwise adj legal n (List.range n) []⟩
  obtain ⟨c, hcmem, htc⟩ :=
    unwrapGo_covers adj legal n (List.range n) [] t (List.mem_range.mpr ht)
      (List.not_mem_nil t)
  have htf : t ∈ (generate_uvs_mesh adj legal n).flatten :=
    List.mem_flatten.mpr ⟨c, hcmem, htc⟩
  exact ⟨List.count_eq_one_of_mem hnd htf,
    unwrapGo_bound adj legal n (List.range n) [] (fun i hi => List.mem_range.mp hi)⟩

/-- C1 witness: a three-triangle strip with chain adjacency and a permissive
legality test; triangle 1 lies in exactly one chart. -/
theorem generate_uvs_mesh_partition_witness :
    1 < 3 ∧
    ((generate_uvs_mesh (fun a b => a + 1 == b || b + 1 == a) (fun _ _ => true)
        3).flatten.count 1 = 1 ∧
     ∀ c ∈ generate_uvs_mesh (fun a b => a + 1 == b || b + 1 == a) (fun _ _ => true) 3,
       ∀ x ∈ c, x < 3) :=
  ⟨by decide,
   generate_uvs_mesh_partition (fun a b => a + 1 == b || b + 1 == a) (fun _ _ => true)
     3 1 (by decide)⟩

/-- Applying a schedule never changes the texture's length. -/
theorem applySched_length (g : Nat → Nat) (sched : List Nat) :
    ∀ tex : List Nat, (applySched g sched tex).length = tex.length := by
  induction sched with
  | nil => intro tex; rfl
  | cons i s ih =>
    intro tex
    have h1 : applySched g (i :: s) tex = applySched g s (tex.set i (g i)) := rfl
    rw [h1, ih, List.length_set]

/-- Texels outside the schedule are untouched by the bake. -/
theorem applySched_getElem_not_mem (g : Nat → Nat) (sched : List Nat) :
    ∀ (tex : List Nat) (j : Nat), j ∉ sched →
      (applySched g sched tex)[j]? = tex[j]? := by
  induction sched with
  | nil => intro tex j _; rfl
  | cons i s ih =>
    intro tex j hj
    have hji : j ≠ i := fun h => hj (h ▸ List.mem_cons_self i s)
    have hjs : j ∉ s := fun h => hj (List.mem_cons_of_mem i h)
    have h1 : applySched g (i :: s) tex = applySched g s (tex.set i (g i)) := rfl
    rw [h1, ih _ j hjs, List.getElem?_set_ne (fun h => hji h.symm)]

/-- Every in-range texel of the schedule ends up holding its own per-texel
value, regardless of the order of the rest of the schedule. -/
theorem applySched_getElem_mem (g : Nat → Nat) (sched : List Nat) :
    ∀ (tex : List Nat) (j : Nat), j ∈ sched → j < tex.length →
      (applySched g sched tex)[j]? = some (g j) := by
  induction sched with
  | nil => intro tex j hj _; exact absurd hj (List.not_mem_nil j)
  | cons i s ih =>
    intro tex j hj hlen
    have h1 : applySched g (i :: s) tex = applySched g s (tex.set i (g i)) := rfl
    by_cases hjs : j ∈ s
    · rw [h1]
      exact ih _ j hjs (by rw [List.length_set]; exact hlen)
    · have hji : j = i := by
        rcases List.mem_cons.mp hj with h | h
        · exact h
        · exact absurd h hjs
      subst hji
      rw [h1, applySched_getElem_not_mem g s _ j hjs]
      exact List.getElem?_set_eq_of_lt (g j) hlen

/-- A bake under any schedule that covers every texel exactly once equals the
schedule-free reference bake. -/
theorem bakeSched_eq_bakeRef (w h : Nat) (f : Nat → Nat → Nat) (sched : List Nat)
    (hp : sched.Perm (List.range (w * h))) :
    bakeSched w h f sched = bakeRef w h f := by
  apply List.ext_getElem?
  intro j
  by_cases hj : j < w * h
  · have hjs : j ∈ sched := hp.mem_iff.mpr (List.mem_range.mpr hj)
    rw [bakeSched, applySched_getElem_mem _ _ _ j hjs (by simpa using hj)]
    rw [bakeRef, List.getElem?_map, List.getElem?_range hj]
    rfl
  · have hjs : j ∉ sched := fun hmem => hj (List.mem_range.mp (hp.mem_iff.mp hmem))
    rw [bakeSched, applySched_getElem_not_mem _ _ _ j hjs]
    have h1 : (List.replicate (w * h) 0)[j]? = none :=
      List.getElem?_eq_none (by simpa using Nat.le_of_not_lt hj)
    have h2 : (bakeRef w h f)[j]? = none :=
      List.getElem?_eq_none (by simp [bakeRef]; exact Nat.le_of_not_lt hj)
    rw [h1, h2]

/-- C3: the bake is a deterministic function of its inputs.  With the
per-texel value a fixed function of the texel's coordinates (fixed scene,
light set, sample count and per-texel seed), any two bakes — under any two
worker schedules each covering every texel exactly once — produce identical
lightmap textures, both equal to the reference texture. -/
theorem bake_deterministic (w h : Nat) (f : Nat → Nat → Nat) (s1 s2 : List Nat)
    (h1 : s1.Perm (List.range (w * h))) (h2 : s2.Perm (List.range (w * h))) :
    bakeSched w h f s1 = bakeSched w h f s2 ∧
    bakeSched w h f s1 = bakeRef w h f :=
  ⟨(bakeSched_eq_bakeRef w h f s1 h1).trans (bakeSched_eq_bakeRef w h f s2 h2).symm,
   bakeSched_eq_bakeRef w h f s1 h1⟩

/-- C3 witness: a 2×2 texture baked in two different texel orders gives the
same texture. -/
theorem bake_deterministic_witness :
    ([3, 1, 0, 2] : List Nat).Perm (List.range (2 * 2)) ∧
    ([0, 1, 2, 3] : List Nat).Perm (List.range (2 * 2)) ∧
    (bakeSched 2 2 (fun x y => 10 * x + y) [3, 1, 0, 2] =
       bakeSched 2 2 (fun x y => 10 * x + y) [0, 1, 2, 3] ∧
     bakeSched 2 2 (fun x y => 10 * x + y) [3, 1, 0, 2] =
       bakeRef 2 2 (fun x y => 10 * x + y)) :=
  ⟨by decide, by decide,
   bake_deterministic 2 2 (fun x y => 10 * x + y) [3, 1, 0, 2] [0, 1, 2, 3]
     (by decide) (by decide)⟩

/-- A zero-length segment hits no triangle: with coincident endpoints the
segment direction is the zero vector, so the Moeller–Trumbore determinant
vanishes and the test rejects. -/
theorem segHitTri_self (eps : ℚ) (P : Vec3) (tri : Triangle) :
    segHitTri eps P P tri = false := by
  simp only [segHitTri, Vec3.sub, Vec3.cross, Vec3.dot, sub_self, zero_mul, mul_zero,
    sub_zero, zero_add, add_zero, zero_sub, neg_zero, if_pos]

/-- C4: the occlusion query with origin and target both equal to the same
point returns visible; and whenever some listed occluder triangle intersects
the open segment between two points, the query between them returns not
visible. -/
theorem query_visibility (eps : ℚ) (occluders : List Triangle) :
    (∀ P : Vec3, query eps occluders P P = true) ∧
    (∀ o t : Vec3, ∀ tri ∈ occluders, segHitTri eps o t tri = true →
      query eps occluders o t = false) := by
  constructor
  · intro P
    simp only [query, Bool.not_eq_true']
    rw [List.any_eq_false]
    intro tri _
    simp [segHitTri_self]
  · intro o t tri htri hhit
    simp only [query, Bool.not_eq_false']
    exact List.any_eq_true.mpr ⟨tri, htri, hhit⟩

/-- C4 witness: a large opaque triangle spanning the plane z = 1 blocks the
segment from the origin to (0, 0, 2), while the zero-length query at the
origin stays visible. -/
theorem query_visibility_witness :
    (⟨⟨-10, -10, 1⟩, ⟨10, -10, 1⟩, ⟨0, 10, 1⟩⟩ : Triangle) ∈
      [(⟨⟨-10, -10, 1⟩, ⟨10, -10, 1⟩, ⟨0, 10, 1⟩⟩ : Triangle)] ∧
    segHitTri (1/1000) ⟨0, 0, 0⟩ ⟨0, 0, 2⟩ ⟨⟨-10, -10, 1⟩, ⟨10, -10, 1⟩, ⟨0, 10, 1⟩⟩ = true ∧
    query (1/1000) [⟨⟨-10, -10, 1⟩, ⟨10, -10, 1⟩, ⟨0, 10, 1⟩⟩] ⟨0, 0, 0⟩ ⟨0, 0, 2⟩ = false ∧
    query (1/1000) [⟨⟨-10, -10, 1⟩, ⟨10, -10, 1⟩, ⟨0, 10, 1⟩⟩] ⟨0, 0, 0⟩ ⟨0, 0, 0⟩ = true :=
  ⟨List.mem_singleton.mpr rfl,
   by norm_num [segHitTri, Vec3.sub, Vec3.cross, Vec3.dot],
   (query_visibility (1/1000) [⟨⟨-10, -10, 1⟩, ⟨10, -10, 1⟩, ⟨0, 10, 1⟩⟩]).2
     ⟨0, 0, 0⟩ ⟨0, 0, 2⟩ ⟨⟨-10, -10, 1⟩, ⟨10, -10, 1⟩, ⟨0, 10, 1⟩⟩
     (List.mem_singleton.mpr rfl)
     (by norm_num [segHitTri, Vec3.sub, Vec3.cross, Vec3.dot]),
   (query_visibility (1/1000) [⟨⟨-10, -10, 1⟩, ⟨10, -10, 1⟩, ⟨0, 10, 1⟩⟩]).1 ⟨0, 0, 0⟩⟩

/-- The nearest-covered search step keeps any candidate it already holds. -/
theorem betterPick_isSome_of_best (g : TexGrid) (i : Nat) (best : Option (Nat × Int))
    (j : Nat) (h : best.isSome) : (betterPick g i best j).isSome := by
  unfold betterPick
  cases hj : TexGrid.at g j with
  | none => exact h
  | some v =>
    cases best with
    | none => simp at h
    | some b => by_cases hd : sqDist g.w i j < b.2 <;> simp [hd]

/-- The nearest-covered search step holds a candidate after visiting a
covered texel. -/
theorem betterPick_isSome_of_cov (g : TexGrid) (i : Nat) (best : Option (Nat × Int))
    (j : Nat) (h : (TexGrid.at g j).isSome) : (betterPick g i best j).isSome := by
  unfold betterPick
  cases hj : TexGrid.at g j with
  | none => rw [hj] at h; simp at h
  | some v =>
    cases best with
    | none => rfl
    | some b => by_cases hd : sqDist g.w i j < b.2 <;> simp [hd]

/-- The nearest-covered fold keeps any candidate it starts with. -/
theorem foldl_betterPick_some_acc (g : TexGrid) (i : Nat) :
    ∀ (l : List Nat) (best : Option (Nat × Int)), best.isSome →
      (l.foldl (betterPick g i) best).isSome := by
  intro l
  induction l with
  | nil => intro best h; exact h
  | cons k l ih => intro best h; exact ih _ (betterPick_isSome_of_best g i best k h)

/-- The nearest-covered fold finds a candidate whenever some scanned texel is
covered. -/
theorem foldl_betterPick_some (g : TexGrid) (i : Nat) :
    ∀ (l : List Nat) (best : Option (Nat × Int)) (j : Nat), j ∈ l →
      (TexGrid.at g j).isSome → (l.foldl (betterPick g i) best).isSome := by
  intro l
  induction l with
  | nil => intro best j hj _; exact absurd hj (List.not_mem_nil j)
  | cons k l ih =>
    intro best j hj hcov
    rcases List.mem_cons.mp hj with rfl | hj'
    · exact foldl_betterPick_some_acc g i l _ (betterPick_isSome_of_cov g i best j hcov)
    · exact ih _ j hj' hcov

/-- The nearest-covered fold is inert over a scan range with no covered
texel. -/
theorem foldl_betterPick_none (g : TexGrid) (i : Nat) :
    ∀ l : List Nat, (∀ j ∈ l, TexGrid.at g j = none) →
      ∀ best, l.foldl (betterPick g i) best = best := by
  intro l
  induction l with
  | nil => intro _ best; rfl
  | cons k l ih =>
    intro h best
    have hk : TexGrid.at g k = none := h k (List.mem_cons_self _ _)
    have hstep : betterPick g i best k = best := by
      unfold betterPick
      rw [hk]
    show l.foldl (betterPick g i) (betterPick g i best k) = best
    rw [hstep]
    exact ih (fun j hj => h j (List.mem_cons_of_mem _ hj)) best

/-- A covered texel keeps its own value under dilation. -/
theorem dilateCell_at_some (G : TexGrid) (i : Nat) (v : Nat)
    (h : TexGrid.at G i = some v) : dilateCell G i = some v := by
  unfold dilateCell
  rw [h]

/-- An uncovered texel receives the nearest covered value under dilation. -/
theorem dilateCell_at_none (G : TexGrid) (i : Nat) (h : TexGrid.at G i = none) :
    dilateCell G i = nearestVal G i := by
  unfold dilateCell
  rw [h]

/-- Inside the grid, the dilated texture stores exactly the dilation pass's
per-texel result. -/
theorem dilate_at (g : TexGrid) (i : Nat) (h : i < g.w * g.h) :
    TexGrid.at (dilate g) i = dilateCell g i := by
  show ((List.range (g.w * g.h)).map (dilateCell g)).getD i none = dilateCell g i
  rw [List.getD_eq_getElem?_getD, List.getElem?_map, List.getElem?_range h]
  rfl

/-- C5: the dilation (gap-fill) pass is idempotent — applying it twice to a
lightmap texture yields exactly the texture obtained by applying it once. -/
theorem dilate_idempotent (g : TexGrid) : dilate (dilate g) = dilate g := by
  have hmap : (List.range (g.w * g.h)).map (dilateCell (dilate g)) =
      (List.range (g.w * g.h)).map (dilateCell g) := by
    apply List.map_congr_left
    intro i hi
    have hi' : i < g.w * g.h := List.mem_range.mp hi
    by_cases hcov : ∃ j ∈ List.range (g.w * g.h), (TexGrid.at g j).isSome
    · obtain ⟨j, hjmem, hjs⟩ := hcov
      have hsome : (dilateCell g i).isSome := by
        unfold dilateCell
        cases hgi : TexGrid.at g i with
        | some v => rfl
        | none =>
          have hf : ((List.range (g.w * g.h)).foldl (betterPick g i) none).isSome :=
            foldl_betterPick_some g i (List.range (g.w * g.h)) none j hjmem hjs
          simpa [nearestVal] using hf
      obtain ⟨v, hv⟩ := Option.isSome_iff_exists.mp hsome
      exact (dilateCell_at_some (dilate g) i v ((dilate_at g i hi').trans hv)).trans hv.symm
    · push_neg at hcov
      have hnone : ∀ j ∈ List.range (g.w * g.h), TexGrid.at g j = none := by
        intro j hj
        have hb := hcov j hj
        cases hgj : TexGrid.at g j with
        | none => rfl
        | some v => rw [hgj] at hb; simp at hb
      have hcell : ∀ k ∈ List.range (g.w * g.h), dilateCell g k = none := by
        intro k hk
        rw [dilateCell_at_none g k (hnone k hk)]
        unfold nearestVal
        rw [foldl_betterPick_none g k (List.range (g.w * g.h)) hnone none]
        rfl
      have hnone2 : ∀ j ∈ List.range (g.w * g.h), TexGrid.at (dilate g) j = none := by
        intro j hj
        rw [dilate_at g j (List.mem_range.mp hj)]
        exact hcell j hj
      rw [dilateCell_at_none (dilate g) i (hnone2 i hi)]
      have hnv : nearestVal (dilate g) i = none := by
        unfold nearestVal
        rw [show (dilate g).w * (dilate g).h = g.w * g.h from rfl]
        rw [foldl_betterPick_none (dilate g) i (List.range (g.w * g.h)) hnone2 none]
        rfl
      exact hnv.trans (hcell i hi).symm
  have h1 : dilate (dilate g) =
      ⟨g.w, g.h, (List.range (g.w * g.h)).map (dilateCell (dilate g))⟩ := rfl
  rw [h1, hmap]
  rfl

/-- C10: in each fixed-timestep update, holding rotate-left decreases the
angle by five degrees (taking precedence over rotate-right), otherwise
holding rotate-right increases it by five degrees, otherwise the angle is
unchanged; and the installed rotation is the quaternion about the Y axis
(0, 1, 0) by the accumulated angle. -/
theorem stepModel_spec (ic : InputController) (a : ℚ) :
    (ic.rotate_left = true → (stepModel ic a).1 = a - 5) ∧
    (ic.rotate_left = false → ic.rotate_right = true → (stepModel ic a).1 = a + 5) ∧
    (ic.rotate_left = false → ic.rotate_right = false → (stepModel ic a).1 = a) ∧
    (stepModel ic a).2 = ⟨⟨0, 1, 0⟩, (stepModel ic a).1⟩ := by
  refine ⟨?_, ?_, ?_, rfl⟩ <;> intros <;>
    simp [stepModel, updateAngle, rotationStep, *]

/-- C10 witness: with both keys held the angle still decreases by five
degrees, and with only rotate-right held it increases by five degrees. -/
theorem stepModel_spec_witness :
    (stepModel ⟨true, true⟩ 180).1 = 180 - 5 ∧
    (stepModel ⟨false, true⟩ 180).1 = 180 + 5 :=
  ⟨(stepModel_spec ⟨true, true⟩ 180).1 rfl,
   (stepModel_spec ⟨false, true⟩ 180).2.1 rfl rfl⟩

end Rg3d
